import Mathlib

/-!
Shallow embedding of the survey-data cleaning pipeline
(`src/processing.py` and the Run Analysis handler of `src/app.py`).

Tables are rectangular row/column datasets; a column is either numeric
(cells are `Option ℚ`, `none` standing for a missing value / NaN) or a
string column (pandas object dtype, no missing values modelled).
Machine floats are idealised as exact rationals.  Operations that can
raise in Python (pandas KeyError on selecting an absent column, the
sklearn imputer dropping an all-missing column, numpy ZeroDivisionError
on zero-sum weights, TypeError on comparing strings with numbers)
return `Except.error`.
-/

namespace SurveyPipeline

/-- Column payload: numeric cells (with missing values) or string cells. -/
inductive ColData where
  | num (cells : List (Option ℚ))
  | str (cells : List String)
deriving Repr, DecidableEq

/-- Row/column dataset: ordered, named columns. -/
structure Table where
  cols : List (String × ColData)
deriving Repr, DecidableEq

/-- Number of cells stored in a column. -/
def ColData.length : ColData → ℕ
  | ColData.num cells => cells.length
  | ColData.str cells => cells.length

/-- Column names of a table, in order. -/
def Table.names (t : Table) : List String :=
  t.cols.map Prod.fst

/-- First column with the given name (pandas `df[name]`). -/
def Table.lookupCol (t : Table) (name : String) : Option ColData :=
  List.lookup name t.cols

/-- Replace the data of every column with the given name (pandas column assignment). -/
def Table.setCol (t : Table) (name : String) (d : ColData) : Table :=
  ⟨t.cols.map (fun p => if p.1 = name then (p.1, d) else p)⟩

/-- Whether the table has a numeric column of this name
(pandas `select_dtypes(include=np.number)` membership). -/
def Table.isNumericCol (t : Table) (name : String) : Bool :=
  match t.lookupCol name with
  | some (ColData.num _) => true
  | _ => false

/-- Non-missing values of a numeric column, in row order (pandas skipna view). -/
def observedVals (cells : List (Option ℚ)) : List ℚ :=
  cells.filterMap id

/-- Arithmetic mean (numpy mean over non-missing values). -/
def meanQ (xs : List ℚ) : ℚ :=
  xs.sum / (xs.length : ℚ)

/-- Median as computed by numpy / sklearn: middle element of the sorted
values for odd length, average of the two middle elements for even length. -/
def medianQ (xs : List ℚ) : ℚ :=
  let s := List.insertionSort (fun a b => a ≤ b) xs
  if xs.length % 2 = 1 then s.getD (xs.length / 2) 0
  else (s.getD (xs.length / 2 - 1) 0 + s.getD (xs.length / 2) 0) / 2

/-- Linear-interpolation quantile of pandas `Series.quantile`: for the
sorted non-missing values `s` of length `n`, position `h = q*(n-1)`,
the result is `s[⌊h⌋] + (h - ⌊h⌋) * (s[⌊h⌋+1] - s[⌊h⌋])`. -/
def quantileLinear (xs : List ℚ) (q : ℚ) : ℚ :=
  let s := List.insertionSort (fun a b => a ≤ b) xs
  let h : ℚ := q * ((xs.length : ℚ) - 1)
  let k : ℕ := (⌊h⌋).toNat
  let a := s.getD k 0
  let b := s.getD (k + 1) a
  a + (h - (⌊h⌋ : ℚ)) * (b - a)

/-- Fill every missing cell with the given statistic (`SimpleImputer.transform`
on one column); observed cells are unchanged. -/
def imputeCol (stat : ℚ) (cells : List (Option ℚ)) : List (Option ℚ) :=
  cells.map (fun c => some (c.getD stat))

/-- One conceptual row of the selected numeric block: the i-th cell of
every column of the block, a missing cell read as `none` (an index past
a column's end also reads `none`; on rectangular tables that case never
arises). -/
def rowAt (block : List (List (Option ℚ))) (i : ℕ) : List (Option ℚ) :=
  block.map (fun col => col.getD i none)

/-- Squared coordinate differences over the coordinates where both rows
are observed — the pairwise-complete part of the nan-Euclidean
distance. -/
def sqDistParts (r1 r2 : List (Option ℚ)) : List ℚ :=
  (r1.zip r2).filterMap (fun pr =>
    match pr with
    | (some a, some b) => some ((a - b) * (a - b))
    | _ => none)

/-- Modelled from the spec (4.1, KNN distance is Euclidean over the
selected columns, pairwise-complete) and scikit-learn's documented
`nan_euclidean` metric: the squared distance between two rows, rescaled
by `n_features / n_present`, and `none` when the rows share no observed
coordinate. Squaring is strictly monotone on nonnegative values, so
nearest-neighbour selection by the squared distance agrees with the
library's Euclidean distance while staying exact over ℚ. -/
def nanSqDist (nfeat : ℕ) (r1 r2 : List (Option ℚ)) : Option ℚ :=
  let parts := sqDistParts r1 r2
  if parts.isEmpty then none
  else some ((nfeat : ℚ) / (parts.length : ℚ) * parts.sum)

/-- Modelled from the spec (4.1): `KNNImputer(n_neighbors=5)` applied to
one column `fcol` of the selected block. An observed cell is kept. A
missing cell is replaced by the mean of `fcol` over the (up to) 5
nearest donor rows — rows whose `fcol` value is observed and whose
nan-Euclidean distance to the receiver row is defined. Ties in distance
are broken by row index (`np.argpartition` leaves the order among ties
unspecified; index order is one consistent choice). A receiver with no
usable donor at all receives the mean of the column's observed values,
the library's documented fallback. -/
def knnColumn (block : List (List (Option ℚ))) (fcol : List (Option ℚ)) :
    List (Option ℚ) :=
  (List.range fcol.length).map (fun i =>
    match fcol.getD i none with
    | some v => some v
    | none =>
        let donors := (List.range fcol.length).filterMap (fun j =>
          match fcol.getD j none, nanSqDist block.length (rowAt block i) (rowAt block j) with
          | some v, some d => some (d, j, v)
          | _, _ => none)
        let chosen := (List.insertionSort
          (fun a b => a.1 < b.1 ∨ (a.1 = b.1 ∧ a.2.1 ≤ b.2.1)) donors).take 5
        if chosen.isEmpty then some (meanQ (observedVals fcol))
        else some (meanQ (chosen.map (fun t => t.2.2))))

/-- Embedding of `impute_missing_values(df, columns, method)`.

Python semantics embedded here, in evaluation order:
* `df_imputed[columns]` raises `KeyError` when a selected name is absent;
* `select_dtypes(include=np.number)` keeps the numeric selected columns;
* empty numeric selection returns the table unchanged with a log line;
* every imputer the method dispatch can pick — `SimpleImputer` with
  either strategy, and `KNNImputer`, whose `keep_empty_features`
  defaults to `False` as well — drops a selected column with no observed
  value at `fit_transform`, making the write-back
  `df_imputed[numeric_cols] = ...` raise (`ValueError`: columns must be
  same length as key); the guard is therefore checked once, before the
  method dispatch;
* `method == 'Mean'` uses the column mean, `'KNN'` runs the modelled
  `KNNImputer(n_neighbors=5)` over the selected block (`knnColumn`),
  and anything else falls through to the median imputer. -/
def imputeMissingValues (df : Table) (columns : List String) (method : String) :
    Except String (Table × String) :=
  if columns.all (fun c => df.names.contains c) then
    let numeric_cols := columns.filter (fun c => df.isNumericCol c)
    if numeric_cols.isEmpty then
      Except.ok (df, "No numeric columns selected for imputation.")
    else if df.cols.all (fun p =>
        !(numeric_cols.contains p.1) ||
        (match p.2 with
         | ColData.num cells => !(observedVals cells).isEmpty
         | ColData.str _ => true)) then
      let block := numeric_cols.filterMap (fun c =>
        match df.lookupCol c with
        | some (ColData.num cells) => some cells
        | _ => none)
      Except.ok
        (⟨df.cols.map (fun p =>
            match p.2 with
            | ColData.num cells =>
                if numeric_cols.contains p.1 then
                  (p.1, ColData.num (if method = "KNN" then knnColumn block cells
                    else imputeCol
                      ((if method = "Mean" then meanQ else medianQ) (observedVals cells)) cells))
                else p
            | ColData.str _ => p)⟩,
         "Imputed missing values in selected columns using " ++ method ++ ".")
    else
      Except.error "ValueError: imputer dropped a column with no observed values"
  else
    Except.error "KeyError: selected columns not in index"

/-- Sequential clamping of `handle_outliers`: first `np.where(col < lower_bound, ...)`,
then `np.where(col > upper_bound, ...)`. -/
def capVal (lb ub v : ℚ) : ℚ :=
  let v1 := if v < lb then lb else v
  if ub < v1 then ub else v1

/-- Apply the clamping to a whole column; missing cells stay missing
(NaN compares false with both bounds, so `np.where` keeps it). -/
def capColumnWith (lb ub : ℚ) (cells : List (Option ℚ)) : List (Option ℚ) :=
  cells.map (Option.map (capVal lb ub))

/-- Whether a cell is counted as an outlier by
`(df[col] < lower_bound) | (df[col] > upper_bound)`; a missing cell never is. -/
def isOutlierCell (lb ub : ℚ) : Option ℚ → Bool
  | some v => decide (v < lb) || decide (ub < v)
  | none => false

/-- Number of outlier rows (`len(outliers)`). -/
def outlierCountWith (lb ub : ℚ) (cells : List (Option ℚ)) : ℕ :=
  (cells.filter (isOutlierCell lb ub)).length

/-- Tukey fences of one column: `Q1 - 1.5*IQR` and `Q3 + 1.5*IQR` from the
linear-interpolation quartiles of the non-missing values; `none` when the
column has no observed value (pandas quantile is NaN then and every
comparison with it is false). -/
def colBoundsFrom (obs : List ℚ) : Option (ℚ × ℚ) :=
  if obs.isEmpty then none
  else
    let q1 := quantileLinear obs (1/4)
    let q3 := quantileLinear obs (3/4)
    let iqrv := q3 - q1
    some (q1 - 3/2 * iqrv, q3 + 3/2 * iqrv)

/-- Tukey fences computed from a column of optional cells. -/
def colQuantileBounds (cells : List (Option ℚ)) : Option (ℚ × ℚ) :=
  colBoundsFrom (observedVals cells)

/-- Outlier count of a column under its own fences. -/
def outlierCountOf (cells : List (Option ℚ)) : ℕ :=
  match colQuantileBounds cells with
  | none => 0
  | some (lb, ub) => outlierCountWith lb ub cells

/-- Per-column body of the `handle_outliers` loop: compute the fences,
count the outliers, clamp only when some exist, and emit the log lines. -/
def processColumn (cells : List (Option ℚ)) (colName : String) :
    List (Option ℚ) × List String :=
  match colQuantileBounds cells with
  | none => (cells, ["No outliers detected in " ++ colName ++ " using IQR."])
  | some (lb, ub) =>
      let n := outlierCountWith lb ub cells
      if n = 0 then
        (cells, ["No outliers detected in " ++ colName ++ " using IQR."])
      else
        (capColumnWith lb ub cells,
         ["Found " ++ toString n ++ " outlier(s) in " ++ colName ++ " using IQR.",
          "Capped outliers in " ++ colName ++ " at the lower and upper bounds."])

/-- One iteration of the `handle_outliers` loop over the running table:
numeric columns are processed and written back, others are skipped silently. -/
def outlierStep (acc : Table × List String) (c : String) : Table × List String :=
  match acc.1.lookupCol c with
  | some (ColData.num cells) =>
      let r := processColumn cells c
      (acc.1.setCol c (ColData.num r.1), acc.2 ++ r.2)
  | _ => acc

/-- Embedding of `handle_outliers(df, columns)`: keep the selected names
present in the table, fold the per-column processing over them, and fall
back to a single message when no numeric column was processed. -/
def handleOutliers (df : Table) (columns : List String) : Table × String :=
  let valid_columns := columns.filter (fun c => df.names.contains c)
  let r := valid_columns.foldl outlierStep (df, [])
  let logs := if r.2.isEmpty then ["No numeric columns selected for outlier handling."] else r.2
  (r.1, String.intercalate "\n" logs)

/-- Indices of the rows violating the hard-coded rule
`(df['Age'] < 18) & (df['Employment_Status'] == 'Employed')`.
A missing age never compares true; a numeric employment-status column
never equals the string, so no row violates then. -/
def ruleViolations (df : Table) : List ℕ :=
  match df.lookupCol "Age", df.lookupCol "Employment_Status" with
  | some (ColData.num ages), some es =>
      (List.range ages.length).filter (fun i =>
        (match ages.getD i none with
         | some a => decide (a < 18)
         | none => false) &&
        (match es with
         | ColData.str vs => decide (vs.getD i "" = "Employed")
         | ColData.num _ => false))
  | _, _ => []

/-- Corrected employment-status column: violating rows forced to
"Unemployed", all other cells unchanged. -/
def correctedEs (vs : List String) (viol : List ℕ) : List String :=
  (List.range vs.length).map (fun i => if i ∈ viol then "Unemployed" else vs.getD i "")

/-- Embedding of `apply_rules(df)`.  With both columns present and a
numeric age column, violating rows get their status forced to
"Unemployed"; a string-typed age column makes the comparison `< 18`
raise a Python TypeError; with a column missing the table is returned
unchanged with the could-not-apply log line. -/
def applyRules (df : Table) : Except String (Table × String) :=
  match df.lookupCol "Age", df.lookupCol "Employment_Status" with
  | some (ColData.str _), some _ =>
      Except.error "TypeError: < not supported between str and int"
  | some (ColData.num _), some esCol =>
      let viol := ruleViolations df
      if viol.isEmpty then
        Except.ok (df, "No rule violations found.")
      else
        match esCol with
        | ColData.str vs =>
            Except.ok (df.setCol "Employment_Status" (ColData.str (correctedEs vs viol)),
              "Found " ++ toString viol.length ++
              " rule violation(s): Age < 18 and Employed. Correcting status to Unemployed.")
        | ColData.num cells =>
            Except.ok (df.setCol "Employment_Status" (ColData.num cells),
              "Found " ++ toString viol.length ++
              " rule violation(s): Age < 18 and Employed. Correcting status to Unemployed.")
  | _, _ =>
      Except.ok (df, "Could not apply age/employment rule: required columns not found.")

/-- Pairwise-complete rows of a value column and the weight column
(`df[[col, weight_column]].dropna()`). -/
def pairwiseComplete (vcells wcells : List (Option ℚ)) : List (ℚ × ℚ) :=
  (vcells.zip wcells).filterMap (fun p =>
    match p with
    | (some v, some w) => some (v, w)
    | _ => none)

/-- Summary statistics of one column over its pairwise-complete rows:
unweighted mean and `np.average` weighted mean; `none` when no complete
row remains (the column is omitted from the estimates). -/
structure EstimateRecord where
  unweighted : ℚ
  weighted : ℚ
deriving Repr, DecidableEq

/-- Per-column estimate of the `calculate_estimates` loop. -/
def colEstimate (pairs : List (ℚ × ℚ)) : Option EstimateRecord :=
  if pairs.isEmpty then none
  else some
    { unweighted := meanQ (pairs.map Prod.fst)
      weighted := (pairs.map (fun p => p.1 * p.2)).sum / (pairs.map Prod.snd).sum }

/-- Whether a column makes `np.average` raise ZeroDivisionError: a
non-empty pairwise-complete subset whose weights sum to zero. -/
def colZeroWeight (d : ColData) (wcells : List (Option ℚ)) : Bool :=
  match d with
  | ColData.num cells =>
      let pairs := pairwiseComplete cells wcells
      !pairs.isEmpty && decide ((pairs.map Prod.snd).sum = 0)
  | ColData.str _ => false

/-- Embedding of `calculate_estimates(df, weight_column)`.

An absent weight column returns an empty result with a not-found log
line.  A string-typed weight column makes `np.average` raise a TypeError
as soon as one numeric column has an observed value, and otherwise no
column qualifies.  With a numeric weight column, every numeric column
other than the weight gets an estimate over its pairwise-complete rows;
zero-sum weights raise; if no column produced an estimate the result is
empty with the no-valid-columns log line. -/
def calculateEstimates (df : Table) (weight_column : String) :
    Except String (List (String × EstimateRecord) × String) :=
  match df.lookupCol weight_column with
  | none =>
      Except.ok ([], "Weight column " ++ weight_column ++ " not found in the dataframe.")
  | some (ColData.str _) =>
      if df.cols.any (fun p =>
          (p.1 != weight_column) &&
          (match p.2 with
           | ColData.num cells => !(observedVals cells).isEmpty
           | ColData.str _ => false)) then
        Except.error "TypeError: weights of object dtype"
      else
        Except.ok ([], "No valid numeric columns to generate estimates for.")
  | some (ColData.num wcells) =>
      if df.cols.any (fun p => (p.1 != weight_column) && colZeroWeight p.2 wcells) then
        Except.error "ZeroDivisionError: weights sum to zero"
      else
        let summary := df.cols.filterMap (fun p =>
          match p.2 with
          | ColData.num cells =>
              if p.1 != weight_column then
                (colEstimate (pairwiseComplete cells wcells)).map (fun r => (p.1, r))
              else none
          | ColData.str _ => none)
        if summary.isEmpty then
          Except.ok ([], "No valid numeric columns to generate estimates for.")
        else
          Except.ok (summary,
            "Calculated weighted and unweighted means using " ++ weight_column ++ ".")

/-- Embedding of the Run Analysis handler of `src/app.py`: the four
stages in order, each stage fed the previous stage's table, logs
collected in stage order; the final table shown to the user is the
validated one. -/
def runAnalysis (df_raw : Table) (imputation_cols : List String)
    (imputation_method : String) (outlier_cols : List String)
    (weight_column : String) :
    Except String (Table × List (String × EstimateRecord) × List String) :=
  match imputeMissingValues df_raw imputation_cols imputation_method with
  | Except.error e => Except.error e
  | Except.ok r1 =>
      let r2 := handleOutliers r1.1 outlier_cols
      match applyRules r2.1 with
      | Except.error e => Except.error e
      | Except.ok r3 =>
          match calculateEstimates r3.1 weight_column with
          | Except.error e => Except.error e
          | Except.ok r4 => Except.ok (r3.1, r4.1, [r1.2, r2.2, r3.2, r4.2])

/-- Shape of a table: for every column its name and its cell count.
Row identity is positional in the embedding, so preserving the shape is
preserving row count and index. -/
def tableShape (t : Table) : List (String × ℕ) :=
  t.cols.map (fun p => (p.1, p.2.length))

/-- Rectangular table: every column holds exactly `n` cells. -/
def Table.Uniform (t : Table) (n : ℕ) : Prop :=
  ∀ p ∈ t.cols, p.2.length = n

/-- Specification-side reading of the hard-coded rule: row `i` violates
it when the age is observed and below 18 while the employment status is
the string "Employed". -/
def violatesRule (ages : List (Option ℚ)) (vs : List String) (i : ℕ) : Prop :=
  (∃ a, ages.getD i none = some a ∧ a < 18) ∧ vs.getD i "" = "Employed"

/-! ### Basic lemmas about the table primitives -/

theorem contains_iff_mem {l : List String} {a : String} :
    l.contains a = true ↔ a ∈ l := by
  simp [List.contains]

theorem lookup_cons_self {k : String} {d : ColData} {l : List (String × ColData)} :
    List.lookup k ((k, d) :: l) = some d := by
  have h : (k == k) = true := by simp
  simp [List.lookup_cons, h]

theorem lookup_cons_ne {a k : String} {d : ColData} {l : List (String × ColData)}
    (h : a ≠ k) : List.lookup a ((k, d) :: l) = List.lookup a l := by
  have hb : (a == k) = false := by simp [h]
  simp [List.lookup_cons, hb]

theorem lookup_eq_none_iff {c : String} :
    ∀ {l : List (String × ColData)}, List.lookup c l = none ↔ c ∉ l.map Prod.fst := by
  intro l
  induction l with
  | nil => simp
  | cons p rest ih =>
      rcases p with ⟨k, v⟩
      by_cases h : c = k
      · subst h
        simp [lookup_cons_self]
      · simp [lookup_cons_ne h, ih, h]

theorem lookup_mem {c : String} {d : ColData} :
    ∀ {l : List (String × ColData)}, List.lookup c l = some d → (c, d) ∈ l := by
  intro l
  induction l with
  | nil => simp
  | cons p rest ih =>
      rcases p with ⟨k, v⟩
      by_cases h : c = k
      · subst h
        rw [lookup_cons_self]
        intro hd
        simp at hd
        simp [hd]
      · rw [lookup_cons_ne h]
        intro hd
        exact List.mem_cons_of_mem _ (ih hd)

theorem lookupCol_setCol_ne (t : Table) {c c' : String} (d : ColData) (h : c' ≠ c) :
    (t.setCol c d).lookupCol c' = t.lookupCol c' := by
  rcases t with ⟨l⟩
  induction l with
  | nil => rfl
  | cons p rest ih =>
      rcases p with ⟨k, v⟩
      simp only [Table.setCol, Table.lookupCol, List.map_cons] at ih ⊢
      by_cases hk : k = c
      · subst hk
        have hck : c' ≠ k := h
        have hrw : (if (k, v).1 = k then ((k, v).1, d) else (k, v)) = (k, d) := if_pos rfl
        rw [hrw, lookup_cons_ne hck, lookup_cons_ne hck]
        exact ih
      · simp only [if_neg hk]
        by_cases hc : c' = k
        · subst hc
          rw [lookup_cons_self, lookup_cons_self]
        · rw [lookup_cons_ne hc, lookup_cons_ne hc]
          exact ih

theorem lookupCol_setCol_self (t : Table) {c : String} (d : ColData)
    (h : (t.lookupCol c).isSome) : (t.setCol c d).lookupCol c = some d := by
  rcases t with ⟨l⟩
  induction l with
  | nil => simp [Table.lookupCol] at h
  | cons p rest ih =>
      rcases p with ⟨k, v⟩
      simp only [Table.setCol, Table.lookupCol, List.map_cons] at h ih ⊢
      by_cases hk : k = c
      · subst hk
        simp only [if_pos rfl]
        exact lookup_cons_self
      · have hck : c ≠ k := fun hc => hk hc.symm
        simp only [if_neg hk]
        rw [lookup_cons_ne hck] at h ⊢
        exact ih h

theorem names_setCol (t : Table) (c : String) (d : ColData) :
    (t.setCol c d).names = t.names := by
  rcases t with ⟨l⟩
  simp only [Table.setCol, Table.names]
  induction l with
  | nil => rfl
  | cons p rest ih =>
      rcases p with ⟨k, v⟩
      by_cases hk : k = c
      · simp only [List.map_cons, if_pos hk]
        rw [List.cons_eq_cons]
        exact ⟨rfl, ih⟩
      · simp only [List.map_cons, if_neg hk]
        rw [List.cons_eq_cons]
        exact ⟨rfl, ih⟩

theorem intercalate_single (s : String) : String.intercalate "\n" [s] = s := by
  simp [String.intercalate, String.intercalate.go]

/-! ### Claim C6: degenerate results of the estimator -/

/-- C6: with the weight column absent, `calculate_estimates` returns an
empty estimate table and the not-found log line; with the weight column
present and numeric but no other numeric column having a non-empty
pairwise-complete subset with it, it returns an empty estimate table and
the no-valid-columns log line. -/
theorem estimates_degenerate_cases (df : Table) (w : String) :
    (df.lookupCol w = none →
      calculateEstimates df w =
        Except.ok ([], "Weight column " ++ w ++ " not found in the dataframe.")) ∧
    (∀ wcells, df.lookupCol w = some (ColData.num wcells) →
      (∀ p ∈ df.cols, p.1 ≠ w → ∀ cells, p.2 = ColData.num cells →
        pairwiseComplete cells wcells = []) →
      calculateEstimates df w =
        Except.ok ([], "No valid numeric columns to generate estimates for.")) := by
  constructor
  · intro h
    simp [calculateEstimates, h]
  · intro wcells h hempty
    have hany : (df.cols.any fun p => (p.1 != w) && colZeroWeight p.2 wcells) = false := by
      rw [List.any_eq_false]
      intro p hp
      cases hd : p.2 with
      | num cells =>
          by_cases hw : p.1 = w
          · simp [hw]
          · have := hempty p hp hw cells hd
            simp [colZeroWeight, this]
      | str cells => simp [colZeroWeight]
    have hsum : (df.cols.filterMap fun p =>
        match p.2 with
        | ColData.num cells =>
            if p.1 != w then
              (colEstimate (pairwiseComplete cells wcells)).map (fun r => (p.1, r))
            else none
        | ColData.str _ => none) = [] := by
      rw [List.filterMap_eq_nil_iff]
      intro p hp
      cases hd : p.2 with
      | num cells =>
          by_cases hw : p.1 = w
          · simp [hw]
          · have := hempty p hp hw cells hd
            simp [this, colEstimate]
      | str cells => simp
    simp only [calculateEstimates, h]
    rw [hany, hsum]
    rfl

/-- C6 witness instantiation. -/
theorem estimates_degenerate_cases_witness :
    calculateEstimates ⟨[("v", ColData.num [some 1])]⟩ "w" =
        Except.ok ([], "Weight column " ++ "w" ++ " not found in the dataframe.") ∧
    calculateEstimates ⟨[("v", ColData.num [some 1, none]),
        ("w", ColData.num [none, some 2])]⟩ "w" =
        Except.ok ([], "No valid numeric columns to generate estimates for.") := by
  constructor
  · exact (estimates_degenerate_cases ⟨[("v", ColData.num [some 1])]⟩ "w").1 rfl
  · refine (estimates_degenerate_cases ⟨[("v", ColData.num [some 1, none]),
      ("w", ColData.num [none, some 2])]⟩ "w").2 [none, some 2] rfl ?_
    intro p hp hw cells hcells
    simp only [List.mem_cons, List.not_mem_nil, or_false] at hp
    rcases hp with hp | hp
    · subst hp
      injection hcells with hc
      subst hc
      rfl
    · subst hp
      exact absurd rfl hw

/-! ### Claim C1: graceful degradation of the pipeline stages -/

theorem foldl_outlierStep_skip :
    ∀ (sel : List String) (t : Table) (logs : List String),
      (∀ c ∈ sel, t.isNumericCol c = false) →
      sel.foldl outlierStep (t, logs) = (t, logs) := by
  intro sel
  induction sel with
  | nil => intro t logs _; rfl
  | cons c rest ih =>
      intro t logs h
      have hc := h c (List.mem_cons_self c rest)
      have hstep : outlierStep (t, logs) c = (t, logs) := by
        unfold outlierStep
        unfold Table.isNumericCol at hc
        cases hl : t.lookupCol c with
        | none => simp [hl]
        | some d =>
            cases d with
            | num cells => rw [hl] at hc; simp at hc
            | str s => simp [hl]
      rw [List.foldl_cons, hstep]
      exact ih t logs (fun c' hc' => h c' (List.mem_cons_of_mem _ hc'))

/-- C1 (amended): the stages degrade gracefully — returning an unchanged
or empty result plus a descriptive log line — for an absent weight
column, for an empty imputation selection, for an imputation selection
of present but non-numeric columns, for an outlier selection without any
numeric column of the table (missing and non-numeric names alike), and
for the rule columns being absent.  (As the counterexample shows, the
claim's remaining condition — a column name in the imputation selection
that is absent from the table — makes `impute_missing_values` raise a
KeyError instead.) -/
theorem pipeline_degrades_gracefully :
    (∀ (df : Table) (w : String), df.lookupCol w = none →
      calculateEstimates df w =
        Except.ok ([], "Weight column " ++ w ++ " not found in the dataframe.")) ∧
    (∀ (df : Table) (m : String),
      imputeMissingValues df [] m =
        Except.ok (df, "No numeric columns selected for imputation.")) ∧
    (∀ (df : Table) (sel : List String) (m : String),
      (∀ c ∈ sel, c ∈ df.names) → (∀ c ∈ sel, df.isNumericCol c = false) →
      imputeMissingValues df sel m =
        Except.ok (df, "No numeric columns selected for imputation.")) ∧
    (∀ (df : Table) (sel : List String),
      (∀ c ∈ sel, df.isNumericCol c = false) →
      handleOutliers df sel =
        (df, "No numeric columns selected for outlier handling.")) ∧
    (∀ df : Table,
      df.lookupCol "Age" = none ∨ df.lookupCol "Employment_Status" = none →
      applyRules df =
        Except.ok (df, "Could not apply age/employment rule: required columns not found.")) := by
  refine ⟨?_, ?_, ?_, ?_, ?_⟩
  · intro df w h
    simp [calculateEstimates, h]
  · intro df m
    rfl
  · intro df sel m h1 h2
    have hall : (sel.all fun c => df.names.contains c) = true := by
      rw [List.all_eq_true]
      intro c hc
      exact contains_iff_mem.mpr (h1 c hc)
    have hfil : (sel.filter fun c => df.isNumericCol c) = [] := by
      rw [List.filter_eq_nil_iff]
      intro c hc
      simp [h2 c hc]
    simp only [imputeMissingValues, hall, hfil]
    rfl
  · intro df sel h
    have hskip : (sel.filter fun c => df.names.contains c).foldl outlierStep (df, []) = (df, []) :=
      foldl_outlierStep_skip _ df [] (fun c hc => h c (List.mem_of_mem_filter hc))
    simp only [handleOutliers]
    rw [hskip]
    simp [intercalate_single]
  · intro df h
    rcases h with h | h
    · cases hes : df.lookupCol "Employment_Status" with
      | none => simp [applyRules, h, hes]
      | some d => simp [applyRules, h, hes]
    · cases ha : df.lookupCol "Age" with
      | none => simp [applyRules, ha, h]
      | some d =>
          cases d with
          | num cells => simp [applyRules, ha, h]
          | str cells => simp [applyRules, ha, h]

/-- C1 counterexample: a selection naming a column absent from the table
makes `impute_missing_values` raise (pandas KeyError on
`df_imputed[columns]`) instead of degrading gracefully. -/
theorem impute_raises_on_missing_selected_column :
    imputeMissingValues ⟨[("a", ColData.num [some 1])]⟩ ["a", "b"] "Median" =
      Except.error "KeyError: selected columns not in index" := by
  rfl

/-- C1 witness instantiation. -/
theorem pipeline_degrades_gracefully_witness :
    calculateEstimates ⟨[("s", ColData.str ["x"])]⟩ "missing" =
      Except.ok ([], "Weight column " ++ "missing" ++ " not found in the dataframe.") ∧
    imputeMissingValues ⟨[("s", ColData.str ["x"])]⟩ [] "Median" =
      Except.ok (⟨[("s", ColData.str ["x"])]⟩, "No numeric columns selected for imputation.") ∧
    imputeMissingValues ⟨[("s", ColData.str ["x"])]⟩ ["s"] "Median" =
      Except.ok (⟨[("s", ColData.str ["x"])]⟩, "No numeric columns selected for imputation.") ∧
    handleOutliers ⟨[("s", ColData.str ["x"])]⟩ ["s", "zz"] =
      (⟨[("s", ColData.str ["x"])]⟩, "No numeric columns selected for outlier handling.") ∧
    applyRules ⟨[("s", ColData.str ["x"])]⟩ =
      Except.ok (⟨[("s", ColData.str ["x"])]⟩,
        "Could not apply age/employment rule: required columns not found.") := by
  refine ⟨?_, ?_, ?_, ?_, ?_⟩
  · exact pipeline_degrades_gracefully.1 _ "missing" rfl
  · exact pipeline_degrades_gracefully.2.1 _ "Median"
  · exact pipeline_degrades_gracefully.2.2.1 _ ["s"] "Median" (by decide) (by decide)
  · exact pipeline_degrades_gracefully.2.2.2.1 _ ["s", "zz"] (by decide)
  · exact pipeline_degrades_gracefully.2.2.2.2 _ (Or.inl rfl)

/-! ### Claim C4: the orchestrator threads the four stages in order -/

/-- C4: whenever the four stages succeed, the Run Analysis handler runs
impute, outlier-cap, rule-validate and weighted-estimate strictly in
that order, feeds each stage's output table to the next stage, exposes
the post-validation table and the estimates computed from it, and
returns the four stage logs concatenated in stage order. -/
theorem run_analysis_threads_stages (df : Table) (ic : List String) (m : String)
    (oc : List String) (w : String) (t1 t3 : Table) (l1 l3 : String)
    (est : List (String × EstimateRecord)) (l4 : String)
    (h1 : imputeMissingValues df ic m = Except.ok (t1, l1))
    (h3 : applyRules (handleOutliers t1 oc).1 = Except.ok (t3, l3))
    (h4 : calculateEstimates t3 w = Except.ok (est, l4)) :
    runAnalysis df ic m oc w =
      Except.ok (t3, est, [l1, (handleOutliers t1 oc).2, l3, l4]) := by
  simp [runAnalysis, h1, h3, h4]

/-- C4 witness instantiation. -/
theorem run_analysis_threads_stages_witness :
    runAnalysis ⟨[("a", ColData.num [some 1])]⟩ [] "Median" [] "a" =
      Except.ok (⟨[("a", ColData.num [some 1])]⟩, [],
        ["No numeric columns selected for imputation.",
         "No numeric columns selected for outlier handling.",
         "Could not apply age/employment rule: required columns not found.",
         "No valid numeric columns to generate estimates for."]) :=
  run_analysis_threads_stages ⟨[("a", ColData.num [some 1])]⟩ [] "Median" [] "a"
    ⟨[("a", ColData.num [some 1])]⟩ ⟨[("a", ColData.num [some 1])]⟩
    "No numeric columns selected for imputation."
    "Could not apply age/employment rule: required columns not found."
    [] "No valid numeric columns to generate estimates for." rfl rfl rfl

/-! ### Claims C5 and C8: the rule validator -/

theorem ageFlag_iff {ages : List (Option ℚ)} {i : ℕ} :
    ((match ages.getD i none with
      | some a => decide (a < 18)
      | none => false) = true) ↔ ∃ a, ages.getD i none = some a ∧ a < 18 := by
  cases h : ages.getD i none <;> simp [h]

theorem mem_ruleViolations_str (df : Table) {ages : List (Option ℚ)} {vs : List String}
    (ha : df.lookupCol "Age" = some (ColData.num ages))
    (hes : df.lookupCol "Employment_Status" = some (ColData.str vs)) (i : ℕ) :
    i ∈ ruleViolations df ↔ i < ages.length ∧ violatesRule ages vs i := by
  unfold ruleViolations
  rw [ha, hes]
  rw [List.mem_filter, List.mem_range]
  simp only [Bool.and_eq_true, decide_eq_true_eq, violatesRule]
  constructor
  · rintro ⟨hi, hflag, hes2⟩
    exact ⟨hi, ageFlag_iff.mp hflag, hes2⟩
  · rintro ⟨hi, hage, hes2⟩
    exact ⟨hi, ageFlag_iff.mpr hage, hes2⟩

theorem ruleViolations_es_num (df : Table) {ages cells : List (Option ℚ)}
    (ha : df.lookupCol "Age" = some (ColData.num ages))
    (hes : df.lookupCol "Employment_Status" = some (ColData.num cells)) :
    ruleViolations df = [] := by
  unfold ruleViolations
  rw [ha, hes]
  simp

theorem correctedEs_length (vs : List String) (viol : List ℕ) :
    (correctedEs vs viol).length = vs.length := by
  simp [correctedEs]

theorem correctedEs_getD (vs : List String) (viol : List ℕ) (i : ℕ) :
    (correctedEs vs viol).getD i "" =
      if i < vs.length then (if i ∈ viol then "Unemployed" else vs.getD i "") else "" := by
  unfold correctedEs
  rw [List.getD_eq_getElem?_getD, List.getElem?_map]
  by_cases hi : i < vs.length
  · rw [List.getElem?_range hi]
    simp [hi]
  · have hnone : (List.range vs.length)[i]? = none := by
      rw [List.getElem?_eq_none_iff, List.length_range]
      exact Nat.le_of_not_lt hi
    rw [hnone]
    simp [hi]

theorem ruleViolations_after_correction (df : Table) {ages : List (Option ℚ)}
    {vs : List String}
    (ha : df.lookupCol "Age" = some (ColData.num ages))
    (hes : df.lookupCol "Employment_Status" = some (ColData.str vs)) :
    ruleViolations
      (df.setCol "Employment_Status" (ColData.str (correctedEs vs (ruleViolations df)))) = [] := by
  set t1 := df.setCol "Employment_Status" (ColData.str (correctedEs vs (ruleViolations df))) with ht1
  have ha1 : t1.lookupCol "Age" = some (ColData.num ages) := by
    rw [ht1, lookupCol_setCol_ne df _ (by decide)]
    exact ha
  have hes1 : t1.lookupCol "Employment_Status" =
      some (ColData.str (correctedEs vs (ruleViolations df))) := by
    rw [ht1]
    exact lookupCol_setCol_self df _ (by rw [hes]; rfl)
  rw [List.eq_nil_iff_forall_not_mem]
  intro i hi
  rw [mem_ruleViolations_str t1 ha1 hes1] at hi
  rcases hi with ⟨hlt, hage, hemp⟩
  rw [correctedEs_getD] at hemp
  by_cases hvs : i < vs.length
  · rw [if_pos hvs] at hemp
    by_cases hv : i ∈ ruleViolations df
    · rw [if_pos hv] at hemp
      exact absurd hemp (by decide)
    · rw [if_neg hv] at hemp
      exact hv ((mem_ruleViolations_str df ha hes i).mpr ⟨hlt, hage, hemp⟩)
  · rw [if_neg hvs] at hemp
    exact absurd hemp (by decide)

theorem ruleViolations_default (df : Table)
    (h : df.lookupCol "Age" = none ∨ df.lookupCol "Employment_Status" = none) :
    ruleViolations df = [] := by
  unfold ruleViolations
  rcases h with h | h
  · rw [h]
  · rw [h]
    cases df.lookupCol "Age" with
    | none => rfl
    | some d => cases d <;> rfl

theorem ruleViolations_age_str (df : Table) {acells : List String}
    (ha : df.lookupCol "Age" = some (ColData.str acells)) :
    ruleViolations df = [] := by
  unfold ruleViolations
  rw [ha]

theorem applyRules_default (df : Table)
    (h : df.lookupCol "Age" = none ∨ df.lookupCol "Employment_Status" = none) :
    applyRules df =
      Except.ok (df, "Could not apply age/employment rule: required columns not found.") := by
  unfold applyRules
  rcases h with h | h
  · rw [h]
  · rw [h]
    cases df.lookupCol "Age" with
    | none => rfl
    | some d => cases d <;> rfl

theorem applyRules_main (df : Table) {ages : List (Option ℚ)} {esCol : ColData}
    (ha : df.lookupCol "Age" = some (ColData.num ages))
    (hes : df.lookupCol "Employment_Status" = some esCol) :
    applyRules df =
      (if (ruleViolations df).isEmpty then Except.ok (df, "No rule violations found.")
       else match esCol with
        | ColData.str vs =>
            Except.ok
              (df.setCol "Employment_Status" (ColData.str (correctedEs vs (ruleViolations df))),
               "Found " ++ toString (ruleViolations df).length ++
               " rule violation(s): Age < 18 and Employed. Correcting status to Unemployed.")
        | ColData.num cells =>
            Except.ok
              (df.setCol "Employment_Status" (ColData.num cells),
               "Found " ++ toString (ruleViolations df).length ++
               " rule violation(s): Age < 18 and Employed. Correcting status to Unemployed.")) := by
  unfold applyRules
  rw [ha, hes]

/-- C8: the rule validator is idempotent — whatever table `apply_rules`
returns, that table contains no rule violation, and applying
`apply_rules` to it returns it unchanged (with some log line). -/
theorem apply_rules_idempotent (df t1 : Table) (l1 : String)
    (h : applyRules df = Except.ok (t1, l1)) :
    ruleViolations t1 = [] ∧ ∃ l2, applyRules t1 = Except.ok (t1, l2) := by
  cases ha : df.lookupCol "Age" with
  | none =>
      have hd := applyRules_default df (Or.inl ha)
      rw [hd] at h
      simp only [Except.ok.injEq, Prod.mk.injEq] at h
      obtain ⟨ht, -⟩ := h
      subst ht
      exact ⟨ruleViolations_default df (Or.inl ha), _, hd⟩
  | some dAge =>
      cases hes : df.lookupCol "Employment_Status" with
      | none =>
          have hd := applyRules_default df (Or.inr hes)
          rw [hd] at h
          simp only [Except.ok.injEq, Prod.mk.injEq] at h
          obtain ⟨ht, -⟩ := h
          subst ht
          exact ⟨ruleViolations_default df (Or.inr hes), _, hd⟩
      | some esCol =>
          cases dAge with
          | str acells =>
              have : applyRules df =
                  Except.error "TypeError: < not supported between str and int" := by
                unfold applyRules
                rw [ha, hes]
              rw [this] at h
              exact absurd h (by simp)
          | num ages =>
              rw [applyRules_main df ha hes] at h
              by_cases hv : ruleViolations df = []
              · rw [if_pos (by rw [hv]; rfl)] at h
                simp only [Except.ok.injEq, Prod.mk.injEq] at h
                obtain ⟨ht, -⟩ := h
                subst ht
                refine ⟨hv, "No rule violations found.", ?_⟩
                rw [applyRules_main df ha hes, if_pos (by rw [hv]; rfl)]
              · have hvb : ¬((ruleViolations df).isEmpty = true) := by
                  rw [List.isEmpty_iff]
                  exact hv
                rw [if_neg hvb] at h
                cases esCol with
                | num cells =>
                    exact absurd (ruleViolations_es_num df ha hes) hv
                | str vs =>
                    simp only [Except.ok.injEq, Prod.mk.injEq] at h
                    obtain ⟨ht, -⟩ := h
                    subst ht
                    have hzero := ruleViolations_after_correction df ha hes
                    refine ⟨hzero, "No rule violations found.", ?_⟩
                    have ha1 : (df.setCol "Employment_Status"
                        (ColData.str (correctedEs vs (ruleViolations df)))).lookupCol "Age" =
                        some (ColData.num ages) := by
                      rw [lookupCol_setCol_ne df _ (by decide)]
                      exact ha
                    have hes1 : (df.setCol "Employment_Status"
                        (ColData.str (correctedEs vs (ruleViolations df)))).lookupCol
                        "Employment_Status" =
                        some (ColData.str (correctedEs vs (ruleViolations df))) :=
                      lookupCol_setCol_self df _ (by rw [hes]; rfl)
                    rw [applyRules_main _ ha1 hes1, if_pos (by rw [hzero]; rfl)]

/-- C5: with a numeric `Age` column and a string `Employment_Status`
column present, `apply_rules` succeeds; it rewrites the status column so
that exactly the rows with observed age below 18 and status "Employed"
become "Unemployed" while every other status cell keeps its value; all
other columns are unchanged in place; the log reports the number of
corrected rows, or that no violation was found; and the violation list
is exactly the set of violating row indices.  With either column absent
the table is returned unchanged with the could-not-apply log line. -/
theorem apply_rules_spec (df : Table) :
    (∀ (ages : List (Option ℚ)) (vs : List String),
      df.lookupCol "Age" = some (ColData.num ages) →
      df.lookupCol "Employment_Status" = some (ColData.str vs) →
      ages.length = vs.length →
      ∃ t1 l1, applyRules df = Except.ok (t1, l1) ∧
        t1.cols.length = df.cols.length ∧
        (∀ (i : ℕ) (p : String × ColData), df.cols[i]? = some p →
          p.1 ≠ "Employment_Status" → t1.cols[i]? = some p) ∧
        (∃ vs2, t1.lookupCol "Employment_Status" = some (ColData.str vs2) ∧
          vs2.length = vs.length ∧
          ∀ i, i < vs.length →
            (violatesRule ages vs i → vs2.getD i "" = "Unemployed") ∧
            (¬violatesRule ages vs i → vs2.getD i "" = vs.getD i "")) ∧
        ((¬∃ i, i < ages.length ∧ violatesRule ages vs i) →
          l1 = "No rule violations found.") ∧
        ((∃ i, i < ages.length ∧ violatesRule ages vs i) →
          l1 = "Found " ++ toString (ruleViolations df).length ++
            " rule violation(s): Age < 18 and Employed. Correcting status to Unemployed.") ∧
        (∀ i, i ∈ ruleViolations df ↔ i < ages.length ∧ violatesRule ages vs i)) ∧
    (df.lookupCol "Age" = none ∨ df.lookupCol "Employment_Status" = none →
      applyRules df =
        Except.ok (df, "Could not apply age/employment rule: required columns not found.")) := by
  constructor
  · intro ages vs ha hes hlen
    have hmem := fun i => mem_ruleViolations_str df ha hes i
    by_cases hv : ruleViolations df = []
    · refine ⟨df, "No rule violations found.", ?_, rfl, ?_, ?_, ?_, ?_, hmem⟩
      · rw [applyRules_main df ha hes, if_pos (by rw [hv]; rfl)]
      · intro i p hp _
        exact hp
      · refine ⟨vs, hes, rfl, ?_⟩
        intro i hi
        constructor
        · intro hviol
          have : i ∈ ruleViolations df := (hmem i).mpr ⟨hlen ▸ hi, hviol⟩
          rw [hv] at this
          exact absurd this (List.not_mem_nil i)
        · intro _
          rfl
      · intro _
        rfl
      · rintro ⟨i, hi, hviol⟩
        have : i ∈ ruleViolations df := (hmem i).mpr ⟨hi, hviol⟩
        rw [hv] at this
        exact absurd this (List.not_mem_nil i)
    · have hvb : ¬((ruleViolations df).isEmpty = true) := by
        rw [List.isEmpty_iff]
        exact hv
      refine ⟨df.setCol "Employment_Status" (ColData.str (correctedEs vs (ruleViolations df))),
        "Found " ++ toString (ruleViolations df).length ++
          " rule violation(s): Age < 18 and Employed. Correcting status to Unemployed.",
        ?_, ?_, ?_, ?_, ?_, ?_, hmem⟩
      · rw [applyRules_main df ha hes, if_neg hvb]
      · simp [Table.setCol]
      · intro i p hp hne
        simp only [Table.setCol, List.getElem?_map, hp, Option.map_some']
        rw [if_neg hne]
      · refine ⟨correctedEs vs (ruleViolations df),
          lookupCol_setCol_self df _ (by rw [hes]; rfl), correctedEs_length vs _, ?_⟩
        intro i hi
        rw [correctedEs_getD, if_pos hi]
        constructor
        · intro hviol
          rw [if_pos ((hmem i).mpr ⟨hlen ▸ hi, hviol⟩)]
        · intro hviol
          rw [if_neg (fun hm => hviol ((hmem i).mp hm).2)]
      · intro hno
        obtain ⟨i, hi⟩ := List.exists_mem_of_ne_nil _ hv
        exact absurd ⟨i, (hmem i).mp hi⟩ hno
      · intro _
        rfl
  · exact applyRules_default df

/-- C5 witness instantiation, on the scenario table of the spec. -/
theorem apply_rules_spec_witness :
    ∃ t1 l1, applyRules ⟨[("Age", ColData.num [some 16, some 25, some 40, none]),
        ("Employment_Status", ColData.str ["Employed", "Employed", "Unemployed", "Employed"]),
        ("Design_Weight", ColData.num [some 1, some 2, some 1, some 1])]⟩ =
      Except.ok (t1, l1) ∧
      t1.cols.length = 3 ∧ t1.lookupCol "Employment_Status" ≠ none := by
  obtain ⟨t1, l1, happ, hlen2, -, ⟨vs2, hlook, -, -⟩, -, -, -⟩ :=
    (apply_rules_spec ⟨[("Age", ColData.num [some 16, some 25, some 40, none]),
      ("Employment_Status", ColData.str ["Employed", "Employed", "Unemployed", "Employed"]),
      ("Design_Weight", ColData.num [some 1, some 2, some 1, some 1])]⟩).1
      [some 16, some 25, some 40, none]
      ["Employed", "Employed", "Unemployed", "Employed"] rfl rfl rfl
  exact ⟨t1, l1, happ, by rw [hlen2]; rfl, by rw [hlook]; exact fun hc => Option.noConfusion hc⟩

/-- C8 witness instantiation. -/
theorem apply_rules_idempotent_witness :
    ruleViolations ⟨[("Age", ColData.num [some 16]),
        ("Employment_Status", ColData.str ["Unemployed"])]⟩ = [] ∧
    ∃ l2, applyRules ⟨[("Age", ColData.num [some 16]),
        ("Employment_Status", ColData.str ["Unemployed"])]⟩ =
      Except.ok (⟨[("Age", ColData.num [some 16]),
        ("Employment_Status", ColData.str ["Unemployed"])]⟩, l2) :=
  apply_rules_idempotent ⟨[("Age", ColData.num [some 16]),
    ("Employment_Status", ColData.str ["Employed"])]⟩ _ _ rfl

/-! ### Claim C9: row count and row identity are preserved -/

theorem uniform_setCol (t : Table) {n : ℕ} (hU : t.Uniform n) (c : String)
    {d : ColData} (hd : d.length = n) : (t.setCol c d).Uniform n := by
  intro p hp
  simp only [Table.setCol, List.mem_map] at hp
  obtain ⟨q, hq, hqe⟩ := hp
  by_cases hc : q.1 = c
  · rw [if_pos hc] at hqe
    rw [← hqe]
    exact hd
  · rw [if_neg hc] at hqe
    rw [← hqe]
    exact hU q hq

theorem tableShape_setCol (t : Table) {n : ℕ} (hU : t.Uniform n) (c : String)
    {d : ColData} (hd : d.length = n) : tableShape (t.setCol c d) = tableShape t := by
  rcases t with ⟨l⟩
  simp only [Table.setCol, tableShape, List.map_map]
  apply List.map_congr_left
  intro p hp
  by_cases hc : p.1 = c
  · simp only [Function.comp_apply, if_pos hc]
    have hn := hU p hp
    rw [hd, hn]
  · simp only [Function.comp_apply, if_neg hc]

theorem processColumn_length (cells : List (Option ℚ)) (nm : String) :
    (processColumn cells nm).1.length = cells.length := by
  unfold processColumn
  cases h : colQuantileBounds cells with
  | none => rfl
  | some b =>
      rcases b with ⟨lb, ub⟩
      by_cases hn : outlierCountWith lb ub cells = 0
      · simp [hn]
      · simp [hn, capColumnWith]

theorem outlierStep_shape {n : ℕ} (acc : Table × List String) (hU : acc.1.Uniform n)
    (c : String) :
    tableShape (outlierStep acc c).1 = tableShape acc.1 ∧ (outlierStep acc c).1.Uniform n := by
  unfold outlierStep
  cases hl : acc.1.lookupCol c with
  | none => exact ⟨rfl, hU⟩
  | some d =>
      cases d with
      | str s => exact ⟨rfl, hU⟩
      | num cells =>
          have hmem : (c, ColData.num cells) ∈ acc.1.cols := lookup_mem hl
          have hlen : (ColData.num cells).length = n := hU _ hmem
          have hdlen : (ColData.num (processColumn cells c).1).length = n := by
            simp only [ColData.length] at hlen ⊢
            rw [processColumn_length]
            exact hlen
          exact ⟨tableShape_setCol acc.1 hU c hdlen, uniform_setCol acc.1 hU c hdlen⟩

theorem foldl_outlierStep_shape {n : ℕ} :
    ∀ (sel : List String) (t : Table) (logs : List String), t.Uniform n →
      tableShape (sel.foldl outlierStep (t, logs)).1 = tableShape t := by
  intro sel
  induction sel with
  | nil => intro t logs _; rfl
  | cons c rest ih =>
      intro t logs hU
      rw [List.foldl_cons]
      obtain ⟨hsh, hU2⟩ := outlierStep_shape (t, logs) hU c
      have h2 := ih (outlierStep (t, logs) c).1 (outlierStep (t, logs) c).2 hU2
      calc tableShape (List.foldl outlierStep (outlierStep (t, logs) c) rest).1
          = tableShape (outlierStep (t, logs) c).1 := h2
        _ = tableShape t := hsh

theorem handleOutliers_shape (df : Table) {n : ℕ} (hU : df.Uniform n)
    (sel : List String) : tableShape (handleOutliers df sel).1 = tableShape df := by
  simp only [handleOutliers]
  exact foldl_outlierStep_shape _ df [] hU

theorem imputeCol_length (stat : ℚ) (cells : List (Option ℚ)) :
    (imputeCol stat cells).length = cells.length := by
  simp [imputeCol]

theorem knnColumn_length (block : List (List (Option ℚ))) (fcol : List (Option ℚ)) :
    (knnColumn block fcol).length = fcol.length := by
  simp [knnColumn]

theorem impute_shape (df : Table) (sel : List String) (m : String) (t1 : Table)
    (l1 : String) (h : imputeMissingValues df sel m = Except.ok (t1, l1)) :
    tableShape t1 = tableShape df := by
  simp only [imputeMissingValues] at h
  by_cases hall : (sel.all fun c => df.names.contains c) = true
  · rw [if_pos hall] at h
    by_cases hempty : (sel.filter fun c => df.isNumericCol c).isEmpty = true
    · rw [if_pos hempty] at h
      simp only [Except.ok.injEq, Prod.mk.injEq] at h
      obtain ⟨ht, -⟩ := h
      rw [← ht]
    · rw [if_neg hempty] at h
      by_cases hobs : (df.cols.all fun p =>
          !((sel.filter fun c => df.isNumericCol c).contains p.1) ||
          (match p.2 with
           | ColData.num cells => !(observedVals cells).isEmpty
           | ColData.str _ => true)) = true
      · rw [if_pos hobs] at h
        simp only [Except.ok.injEq, Prod.mk.injEq] at h
        obtain ⟨ht, -⟩ := h
        rw [← ht]
        simp only [tableShape, List.map_map]
        apply List.map_congr_left
        intro p hp
        cases hd : p.2 with
        | num cells =>
            by_cases hc : ((sel.filter fun c => df.isNumericCol c).contains p.1) = true
            · simp only [Function.comp_apply, hd]
              rw [if_pos hc]
              by_cases hknn : m = "KNN"
              · rw [if_pos hknn]
                simp [ColData.length, knnColumn_length]
              · rw [if_neg hknn]
                simp [ColData.length, imputeCol_length]
            · simp only [Function.comp_apply, hd]
              rw [if_neg hc]
              simp [hd]
        | str cells => simp [Function.comp_apply, hd]
      · rw [if_neg hobs] at h
        exact absurd h (by simp)
  · rw [if_neg hall] at h
    exact absurd h (by simp)

theorem applyRules_shape (df : Table) {n : ℕ} (hU : df.Uniform n) (t1 : Table)
    (l1 : String) (h : applyRules df = Except.ok (t1, l1)) :
    tableShape t1 = tableShape df := by
  cases ha : df.lookupCol "Age" with
  | none =>
      rw [applyRules_default df (Or.inl ha)] at h
      simp only [Except.ok.injEq, Prod.mk.injEq] at h
      obtain ⟨ht, -⟩ := h
      rw [← ht]
  | some dAge =>
      cases hes : df.lookupCol "Employment_Status" with
      | none =>
          rw [applyRules_default df (Or.inr hes)] at h
          simp only [Except.ok.injEq, Prod.mk.injEq] at h
          obtain ⟨ht, -⟩ := h
          rw [← ht]
      | some esCol =>
          cases dAge with
          | str acells =>
              have herr : applyRules df =
                  Except.error "TypeError: < not supported between str and int" := by
                unfold applyRules
                rw [ha, hes]
              rw [herr] at h
              exact absurd h (by simp)
          | num ages =>
              rw [applyRules_main df ha hes] at h
              by_cases hv : (ruleViolations df).isEmpty = true
              · rw [if_pos hv] at h
                simp only [Except.ok.injEq, Prod.mk.injEq] at h
                obtain ⟨ht, -⟩ := h
                rw [← ht]
              · rw [if_neg hv] at h
                cases esCol with
                | num cells =>
                    simp only [Except.ok.injEq, Prod.mk.injEq] at h
                    obtain ⟨ht, -⟩ := h
                    rw [← ht]
                    exact tableShape_setCol df hU _ (hU _ (lookup_mem hes))
                | str vs =>
                    simp only [Except.ok.injEq, Prod.mk.injEq] at h
                    obtain ⟨ht, -⟩ := h
                    rw [← ht]
                    have hlen : (ColData.str (correctedEs vs (ruleViolations df))).length = n := by
                      have := hU _ (lookup_mem hes)
                      simp only [ColData.length] at this ⊢
                      rw [correctedEs_length]
                      exact this
                    exact tableShape_setCol df hU _ hlen

/-- C9: each of the three table-transforming stages preserves the shape
of the table — the ordered list of column names with their cell counts —
so row count and positional row identity are unchanged; only cell values
may differ. -/
theorem stages_preserve_shape (df : Table) (n : ℕ) (hU : df.Uniform n) :
    (∀ (sel : List String) (m : String) (t1 : Table) (l1 : String),
      imputeMissingValues df sel m = Except.ok (t1, l1) → tableShape t1 = tableShape df) ∧
    (∀ sel : List String, tableShape (handleOutliers df sel).1 = tableShape df) ∧
    (∀ (t1 : Table) (l1 : String),
      applyRules df = Except.ok (t1, l1) → tableShape t1 = tableShape df) :=
  ⟨fun sel m t1 l1 h => impute_shape df sel m t1 l1 h,
   fun sel => handleOutliers_shape df hU sel,
   fun t1 l1 h => applyRules_shape df hU t1 l1 h⟩

/-- C9 witness instantiation (Median imputation, outlier capping, and a
KNN imputation where row 1, missing `x`, takes the mean over its single
usable donor, row 0). -/
theorem stages_preserve_shape_witness :
    tableShape (⟨[("x", ColData.num [some 0, some 2, some 2, some 100]),
        ("s", ColData.str ["a", "b", "c", "d"])]⟩ : Table) =
      tableShape (⟨[("x", ColData.num [some 0, none, some 2, some 100]),
        ("s", ColData.str ["a", "b", "c", "d"])]⟩ : Table) ∧
    tableShape (handleOutliers ⟨[("x", ColData.num [some 0, none, some 2, some 100]),
        ("s", ColData.str ["a", "b", "c", "d"])]⟩ ["x"]).1 =
      tableShape (⟨[("x", ColData.num [some 0, none, some 2, some 100]),
        ("s", ColData.str ["a", "b", "c", "d"])]⟩ : Table) ∧
    tableShape (⟨[("x", ColData.num [some 5, some 5]),
        ("y", ColData.num [some 0, some 0])]⟩ : Table) =
      tableShape (⟨[("x", ColData.num [some 5, none]),
        ("y", ColData.num [some 0, some 0])]⟩ : Table) := by
  have h := stages_preserve_shape ⟨[("x", ColData.num [some 0, none, some 2, some 100]),
    ("s", ColData.str ["a", "b", "c", "d"])]⟩ 4 (by
      intro p hp
      simp only [List.mem_cons, List.not_mem_nil, or_false] at hp
      rcases hp with h | h <;> subst h <;> rfl)
  have h2 := stages_preserve_shape ⟨[("x", ColData.num [some 5, none]),
    ("y", ColData.num [some 0, some 0])]⟩ 2 (by
      intro p hp
      simp only [List.mem_cons, List.not_mem_nil, or_false] at hp
      rcases hp with h | h <;> subst h <;> rfl)
  have hm : meanQ [(5 : ℚ)] = 5 := by norm_num [meanQ]
  have hknn : imputeMissingValues ⟨[("x", ColData.num [some 5, none]),
      ("y", ColData.num [some 0, some 0])]⟩ ["x", "y"] "KNN" =
      Except.ok (⟨[("x", ColData.num [some 5, some (meanQ [(5 : ℚ)])]),
        ("y", ColData.num [some 0, some 0])]⟩,
       "Imputed missing values in selected columns using " ++ "KNN" ++ ".") := rfl
  rw [hm] at hknn
  exact ⟨h.1 ["x"] "Median" _ _ rfl, h.2.1 ["x"], h2.1 ["x", "y"] "KNN" _ _ hknn⟩

/-! ### Claim C10: outlier handling ignores missing cells -/

theorem observedVals_capColumnWith (lb ub : ℚ) :
    ∀ cells : List (Option ℚ),
      observedVals (capColumnWith lb ub cells) = (observedVals cells).map (capVal lb ub) := by
  intro cells
  induction cells with
  | nil => rfl
  | cons c rest ih =>
      cases c with
      | none => simpa [capColumnWith, observedVals] using ih
      | some v => simpa [capColumnWith, observedVals] using ih

theorem outlierCountWith_observed (lb ub : ℚ) :
    ∀ cells : List (Option ℚ),
      outlierCountWith lb ub cells =
        ((observedVals cells).filter fun v => decide (v < lb) || decide (ub < v)).length := by
  intro cells
  induction cells with
  | nil => rfl
  | cons c rest ih =>
      cases c with
      | none => simpa [outlierCountWith, observedVals, isOutlierCell] using ih
      | some v =>
          by_cases hv : (decide (v < lb) || decide (ub < v)) = true
          · simp only [outlierCountWith, observedVals] at ih ⊢
            simp [List.filter_cons, isOutlierCell, hv, ih]
          · simp only [outlierCountWith, observedVals] at ih ⊢
            simp [List.filter_cons, isOutlierCell, hv, ih]

/-- C10: the per-column outlier handling of `handle_outliers` leaves
every missing cell missing, never counts a missing cell as an outlier,
and computes the fences from the non-missing values only: two columns
with the same non-missing values in any arrangement of missing cells get
the same fences, the same outlier count, and the same capped observed
values. -/
theorem outliers_ignore_missing (cells cells2 : List (Option ℚ)) (nm : String)
    (hobs : observedVals cells = observedVals cells2) :
    colQuantileBounds cells = colQuantileBounds cells2 ∧
    outlierCountOf cells = outlierCountOf cells2 ∧
    observedVals (processColumn cells nm).1 = observedVals (processColumn cells2 nm).1 ∧
    (∀ i : ℕ, cells[i]? = some none → ((processColumn cells nm).1)[i]? = some none) := by
  have hb : colQuantileBounds cells = colQuantileBounds cells2 := by
    unfold colQuantileBounds
    rw [hobs]
  refine ⟨hb, ?_, ?_, ?_⟩
  · unfold outlierCountOf
    rw [hb]
    cases colQuantileBounds cells2 with
    | none => rfl
    | some b =>
        rcases b with ⟨lb, ub⟩
        simp only [outlierCountWith_observed, hobs]
  · unfold processColumn
    rw [hb]
    cases colQuantileBounds cells2 with
    | none => exact hobs
    | some b =>
        rcases b with ⟨lb, ub⟩
        have hcnt : outlierCountWith lb ub cells = outlierCountWith lb ub cells2 := by
          rw [outlierCountWith_observed, outlierCountWith_observed, hobs]
        simp only [hcnt]
        by_cases hn : outlierCountWith lb ub cells2 = 0
        · simp only [if_pos hn]
          exact hobs
        · simp only [if_neg hn]
          rw [observedVals_capColumnWith, observedVals_capColumnWith, hobs]
  · intro i hi
    unfold processColumn
    cases colQuantileBounds cells with
    | none => exact hi
    | some b =>
        rcases b with ⟨lb, ub⟩
        by_cases hn : outlierCountWith lb ub cells = 0
        · simp only [if_pos hn]
          exact hi
        · simp only [if_neg hn]
          simp only [capColumnWith, List.getElem?_map, hi, Option.map_some']
          rfl

/-- C10 witness instantiation. -/
theorem outliers_ignore_missing_witness :
    colQuantileBounds [some 0, none, some 10, some 11, some 12] =
      colQuantileBounds [none, some 0, some 10, some 11, some 12] ∧
    outlierCountOf [some 0, none, some 10, some 11, some 12] =
      outlierCountOf [none, some 0, some 10, some 11, some 12] ∧
    observedVals (processColumn [some 0, none, some 10, some 11, some 12] "x").1 =
      observedVals (processColumn [none, some 0, some 10, some 11, some 12] "x").1 ∧
    ((processColumn [some 0, none, some 10, some 11, some 12] "x").1)[1]? = some none := by
  obtain ⟨h1, h2, h3, h4⟩ := outliers_ignore_missing
    [some 0, none, some 10, some 11, some 12] [none, some 0, some 10, some 11, some 12] "x" rfl
  exact ⟨h1, h2, h3, h4 1 rfl⟩

/-! ### Claim C2: median and mean imputation -/

theorem mem_names_of_isNumericCol {df : Table} {c : String}
    (h : df.isNumericCol c = true) : c ∈ df.names := by
  by_contra hc
  have hn : List.lookup c df.cols = none := lookup_eq_none_iff.mpr hc
  unfold Table.isNumericCol Table.lookupCol at h
  rw [hn] at h
  exact Bool.noConfusion h

/-- C2 (amended): for a selection of numeric columns of the table each
of which has at least one observed value, imputing with Median or Mean
succeeds; columns outside the selection are unchanged in place, and in
every selected column every observed cell keeps its value while every
missing cell receives that column's median (resp. mean) computed over
that column's observed values.  (The amendment adds the observed-value
requirement: as the counterexample shows, a selected column with no
observed value makes the stage raise.) -/
theorem impute_median_mean_spec (df : Table) (C : List String) (m : String)
    (hm : m = "Median" ∨ m = "Mean")
    (hnum : ∀ c ∈ C, df.isNumericCol c = true)
    (hobs : (df.cols.all fun p =>
        !(C.contains p.1) ||
        (match p.2 with
         | ColData.num cells => !(observedVals cells).isEmpty
         | ColData.str _ => true)) = true) :
    ∃ t1 l1, imputeMissingValues df C m = Except.ok (t1, l1) ∧
      t1.cols.length = df.cols.length ∧
      (∀ (i : ℕ) (p : String × ColData), df.cols[i]? = some p → p.1 ∉ C →
        t1.cols[i]? = some p) ∧
      (∀ (i : ℕ) (nm : String) (cells : List (Option ℚ)),
        df.cols[i]? = some (nm, ColData.num cells) → nm ∈ C →
        ∃ cells2, t1.cols[i]? = some (nm, ColData.num cells2) ∧
          (∀ (j : ℕ) (v : ℚ), cells[j]? = some (some v) → cells2[j]? = some (some v)) ∧
          (∀ j : ℕ, cells[j]? = some none →
            cells2[j]? = some (some
              ((if m = "Mean" then meanQ else medianQ) (observedVals cells))))) := by
  have hfil : C.filter (fun c => df.isNumericCol c) = C :=
    List.filter_eq_self.mpr hnum
  have hall : (C.all fun c => df.names.contains c) = true := by
    rw [List.all_eq_true]
    intro c hc
    exact contains_iff_mem.mpr (mem_names_of_isNumericCol (hnum c hc))
  by_cases hCe : C.isEmpty = true
  · have hC : C = [] := by rwa [List.isEmpty_iff] at hCe
    subst hC
    refine ⟨df, "No numeric columns selected for imputation.", rfl, rfl, ?_, ?_⟩
    · intro i p hp _
      exact hp
    · intro i nm cells _ hmem
      exact absurd hmem (List.not_mem_nil nm)
  · have hknn : ¬(m = "KNN") := by
      rcases hm with hm | hm <;> simp [hm]
    refine ⟨⟨df.cols.map (fun p =>
        match p.2 with
        | ColData.num cells =>
            if (C.filter fun c => df.isNumericCol c).contains p.1 then
              (p.1, ColData.num (if m = "KNN" then
                  knnColumn ((C.filter fun c => df.isNumericCol c).filterMap (fun c =>
                    match df.lookupCol c with
                    | some (ColData.num cells) => some cells
                    | _ => none)) cells
                else imputeCol
                  ((if m = "Mean" then meanQ else medianQ) (observedVals cells)) cells))
            else p
        | ColData.str _ => p)⟩,
      "Imputed missing values in selected columns using " ++ m ++ ".", ?_, ?_, ?_, ?_⟩
    · simp only [imputeMissingValues, hall]
      rw [hfil]
      rw [if_neg hCe]
      rw [if_pos hobs]
      simp
    · simp
    · intro i p hp hnotin
      rcases p with ⟨nm, pd⟩
      simp only [List.getElem?_map, hp, Option.map_some']
      have hcont : ((C.filter fun c => df.isNumericCol c).contains nm) = false := by
        rw [hfil]
        by_contra hx
        rw [Bool.not_eq_false] at hx
        exact hnotin (contains_iff_mem.mp hx)
      cases pd with
      | num cells =>
          simp [hcont]
          intro h _
          exact absurd h hnotin
      | str cells => simp
    · intro i nm cells hp hin
      have hcont : ((C.filter fun c => df.isNumericCol c).contains nm) = true := by
        rw [hfil]
        exact contains_iff_mem.mpr hin
      refine ⟨imputeCol ((if m = "Mean" then meanQ else medianQ) (observedVals cells)) cells,
        ?_, ?_, ?_⟩
      · simp only [List.getElem?_map, hp, Option.map_some']
        rw [if_pos hcont, if_neg hknn]
      · intro j v hj
        simp [imputeCol, List.getElem?_map, hj]
      · intro j hj
        simp [imputeCol, List.getElem?_map, hj]

/-- C2 counterexample: a selected numeric column with no observed value
makes `impute_missing_values` raise (sklearn drops the all-missing
feature, so the write-back fails) rather than return an imputed table. -/
theorem impute_raises_on_all_missing_column :
    imputeMissingValues ⟨[("a", ColData.num [none])]⟩ ["a"] "Median" =
      Except.error "ValueError: imputer dropped a column with no observed values" := by
  rfl

/-- C2 witness instantiation. -/
theorem impute_median_mean_spec_witness :
    ∃ t1 l1, imputeMissingValues ⟨[("a", ColData.num [some 1, none, some 3])]⟩ ["a"] "Median" =
        Except.ok (t1, l1) ∧
      t1.cols.length = 1 ∧
      ∃ cells2, t1.cols[0]? = some ("a", ColData.num cells2) ∧
        cells2[0]? = some (some 1) ∧ cells2[1]? = some (some 2) := by
  obtain ⟨t1, l1, happ, hlen, -, hsel⟩ :=
    impute_median_mean_spec ⟨[("a", ColData.num [some 1, none, some 3])]⟩ ["a"] "Median"
      (Or.inl rfl) (by decide) rfl
  obtain ⟨cells2, hc, hkeep, hmiss⟩ := hsel 0 "a" [some 1, none, some 3] rfl (by decide)
  refine ⟨t1, l1, happ, by rw [hlen]; rfl, cells2, hc, hkeep 0 1 rfl, ?_⟩
  rw [hmiss 1 rfl, if_neg (by decide : ¬(("Median" : String) = "Mean"))]
  norm_num [medianQ, observedVals, List.filterMap, List.insertionSort, List.orderedInsert,
    List.getD]

/-! ### Claim C7: uniform weights give the unweighted mean -/

theorem sum_map_mul_const (l : List (ℚ × ℚ)) (k : ℚ) :
    (l.map fun p => p.1 * k).sum = (l.map Prod.fst).sum * k := by
  induction l with
  | nil => simp
  | cons q rest ih =>
      simp only [List.map_cons, List.sum_cons, ih]
      ring

theorem colEstimate_uniform_weights (pairs : List (ℚ × ℚ)) (k : ℚ) (hk : k ≠ 0)
    (hw : ∀ x ∈ pairs, x.2 = k) (r : EstimateRecord)
    (hr : colEstimate pairs = some r) : r.weighted = r.unweighted := by
  unfold colEstimate at hr
  by_cases hp : pairs.isEmpty = true
  · rw [if_pos hp] at hr
    exact absurd hr (by simp)
  · rw [if_neg hp] at hr
    simp only [Option.some.injEq] at hr
    subst hr
    simp only [meanQ]
    have hsnd : pairs.map Prod.snd = List.replicate pairs.length k := by
      rw [List.eq_replicate_iff]
      refine ⟨by simp, ?_⟩
      intro b hb
      rw [List.mem_map] at hb
      obtain ⟨x, hx, hxb⟩ := hb
      rw [← hxb]
      exact hw x hx
    have hprod : pairs.map (fun p => p.1 * p.2) = pairs.map (fun p => p.1 * k) := by
      apply List.map_congr_left
      intro x hx
      rw [hw x hx]
    rw [hsnd, hprod, List.sum_replicate]
    rw [sum_map_mul_const, nsmul_eq_mul]
    have hlen : ((pairs.map Prod.fst).length : ℚ) = (pairs.length : ℚ) := by
      rw [List.length_map]
    rw [← hlen]
    exact mul_div_mul_right _ _ hk

/-- C7: when the weight column is numeric and, for the analysed column,
every pairwise-complete row carries the same nonzero weight, the
Weighted Mean reported by `calculate_estimates` for that column equals
its Unweighted Mean. -/
theorem weighted_mean_uniform_weights (df : Table) (w : String)
    (wcells : List (Option ℚ)) (c : String) (r : EstimateRecord) (k : ℚ)
    (est : List (String × EstimateRecord)) (lg : String)
    (hw : df.lookupCol w = some (ColData.num wcells))
    (hk : k ≠ 0)
    (huni : ∀ cells, (c, ColData.num cells) ∈ df.cols →
      ∀ x ∈ pairwiseComplete cells wcells, x.2 = k)
    (hest : calculateEstimates df w = Except.ok (est, lg))
    (hmem : (c, r) ∈ est) :
    r.weighted = r.unweighted := by
  simp only [calculateEstimates, hw] at hest
  by_cases hz : (df.cols.any fun p => (p.1 != w) && colZeroWeight p.2 wcells) = true
  · rw [if_pos hz] at hest
    exact absurd hest (by simp)
  · rw [if_neg hz] at hest
    by_cases hs : (df.cols.filterMap fun p =>
        match p.2 with
        | ColData.num cells =>
            if p.1 != w then
              (colEstimate (pairwiseComplete cells wcells)).map (fun r => (p.1, r))
            else none
        | ColData.str _ => none).isEmpty = true
    · rw [if_pos hs] at hest
      simp only [Except.ok.injEq, Prod.mk.injEq] at hest
      obtain ⟨he, -⟩ := hest
      rw [← he] at hmem
      exact absurd hmem (List.not_mem_nil _)
    · rw [if_neg hs] at hest
      simp only [Except.ok.injEq, Prod.mk.injEq] at hest
      obtain ⟨he, -⟩ := hest
      rw [← he] at hmem
      rw [List.mem_filterMap] at hmem
      obtain ⟨p, hpmem, hpeq⟩ := hmem
      cases hd : p.2 with
      | str cells =>
          rw [hd] at hpeq
          simp at hpeq
      | num cells =>
          rw [hd] at hpeq
          by_cases hpw : (p.1 != w) = true
          · simp only [if_pos hpw] at hpeq
            rw [Option.map_eq_some'] at hpeq
            obtain ⟨r0, hr0, hr0e⟩ := hpeq
            have hpc : p.1 = c := (Prod.mk.injEq _ _ _ _).mp hr0e |>.1
            have hrr : r0 = r := (Prod.mk.injEq _ _ _ _).mp hr0e |>.2
            rw [hrr] at hr0
            have hpmem2 : (c, ColData.num cells) ∈ df.cols := by
              rw [← hpc]
              rw [← hd]
              exact hpmem
            exact colEstimate_uniform_weights _ k hk (huni cells hpmem2) r hr0
          · simp only [if_neg hpw] at hpeq
            exact Option.noConfusion hpeq

/-- C7 witness instantiation. -/
theorem weighted_mean_uniform_weights_witness :
    ({ unweighted := 2, weighted := 2 } : EstimateRecord).weighted =
      ({ unweighted := 2, weighted := 2 } : EstimateRecord).unweighted := by
  have hest : calculateEstimates
      ⟨[("v", ColData.num [some 1, some 3]), ("w", ColData.num [some 2, some 2])]⟩ "w" =
      Except.ok ([("v", { unweighted := 2, weighted := 2 })],
        "Calculated weighted and unweighted means using " ++ "w" ++ ".") := by
    have hlw : (⟨[("v", ColData.num [some 1, some 3]),
        ("w", ColData.num [some 2, some 2])]⟩ : Table).lookupCol "w" =
        some (ColData.num [some 2, some 2]) := rfl
    simp only [calculateEstimates, hlw]
    norm_num [colZeroWeight, pairwiseComplete, colEstimate, meanQ, observedVals,
      List.filterMap,
      show (("v" : String) != "w") = true from rfl,
      show (("w" : String) != "w") = false from rfl]
  refine weighted_mean_uniform_weights
    ⟨[("v", ColData.num [some 1, some 3]), ("w", ColData.num [some 2, some 2])]⟩
    "w" [some 2, some 2] "v" { unweighted := 2, weighted := 2 } 2
    [("v", { unweighted := 2, weighted := 2 })]
    ("Calculated weighted and unweighted means using " ++ "w" ++ ".")
    rfl (by norm_num) ?_ hest (List.mem_cons_self _ _)
  intro cells hc x hx
  simp only [List.mem_cons, List.not_mem_nil, or_false, Prod.mk.injEq] at hc
  rcases hc with ⟨-, hc⟩ | ⟨hbad, -⟩
  · injection hc with hc
    subst hc
    have hpw : pairwiseComplete [some 1, some 3] [some 2, some 2] = [(1, 2), (3, 2)] := rfl
    rw [hpw] at hx
    simp only [List.mem_cons, List.not_mem_nil, or_false] at hx
    rcases hx with hx | hx <;> rw [hx]
  · exact absurd hbad (by decide)

/-! ### Claim C3: outlier capping and its fences -/

theorem getD_eq_getElem_of_lt (s : List ℚ) (d : ℚ) {i : ℕ} (h : i < s.length) :
    s.getD i d = s[i] := by
  rw [List.getD_eq_getElem?_getD, List.getElem?_eq_getElem h, Option.getD_some]

theorem getD_eq_default_of_le (s : List ℚ) (d : ℚ) {i : ℕ} (h : s.length ≤ i) :
    s.getD i d = d := by
  rw [List.getD_eq_getElem?_getD, List.getElem?_eq_none h, Option.getD_none]

theorem sorted_getElem_le (s : List ℚ) (hs : List.Sorted (fun a b => a ≤ b) s)
    {i j : ℕ} (hij : i ≤ j) (hj : j < s.length) :
    s.get ⟨i, lt_of_le_of_lt hij hj⟩ ≤ s.get ⟨j, hj⟩ :=
  List.Sorted.rel_get_of_le hs (Fin.mk_le_mk.mpr hij)

theorem getD_succ_self_le (s : List ℚ) (hs : List.Sorted (fun a b => a ≤ b) s)
    {k : ℕ} (hk : k < s.length) :
    s.getD k 0 ≤ s.getD (k + 1) (s.getD k 0) := by
  by_cases h : k + 1 < s.length
  · rw [getD_eq_getElem_of_lt s _ hk, getD_eq_getElem_of_lt s _ h]
    have := sorted_getElem_le s hs (Nat.le_succ k) h
    simpa [List.get_eq_getElem] using this
  · rw [getD_eq_default_of_le s _ (Nat.le_of_not_lt h)]

theorem quantileLinear_mono (xs : List ℚ) (hxs : xs ≠ []) {q1 q3 : ℚ}
    (hq0 : 0 ≤ q1) (hq13 : q1 ≤ q3) (hq3 : q3 ≤ 1) :
    quantileLinear xs q1 ≤ quantileLinear xs q3 := by
  unfold quantileLinear
  dsimp only
  have hsort : List.Sorted (fun a b => a ≤ b) (List.insertionSort (fun a b => a ≤ b) xs) :=
    List.sorted_insertionSort _ xs
  have hslen : (List.insertionSort (fun a b => a ≤ b) xs).length = xs.length :=
    (List.perm_insertionSort _ xs).length_eq
  set s := List.insertionSort (fun a b => a ≤ b) xs
  set n := xs.length with hndef
  have hn : 1 ≤ n := List.length_pos.mpr hxs
  have hn1 : (0:ℚ) ≤ (n:ℚ) - 1 := by
    have : (1:ℚ) ≤ (n:ℚ) := by exact_mod_cast hn
    linarith
  set h1 := q1 * ((n:ℚ) - 1) with hh1
  set h3 := q3 * ((n:ℚ) - 1) with hh3
  have h1nn : 0 ≤ h1 := mul_nonneg hq0 hn1
  have h3nn : 0 ≤ h3 := mul_nonneg (le_trans hq0 hq13) hn1
  have h13 : h1 ≤ h3 := mul_le_mul_of_nonneg_right hq13 hn1
  have h3le : h3 ≤ (n:ℚ) - 1 := by
    calc h3 ≤ 1 * ((n:ℚ) - 1) := mul_le_mul_of_nonneg_right hq3 hn1
      _ = (n:ℚ) - 1 := one_mul _
  have hf10 : 0 ≤ ⌊h1⌋ := Int.le_floor.mpr (by exact_mod_cast h1nn)
  have hf30 : 0 ≤ ⌊h3⌋ := Int.le_floor.mpr (by exact_mod_cast h3nn)
  have hf13 : ⌊h1⌋ ≤ ⌊h3⌋ := Int.floor_le_floor h13
  have hf3n : ⌊h3⌋ ≤ (n:ℤ) - 1 := by
    have hcast : ((n:ℚ) - 1) = (((n:ℤ) - 1 : ℤ) : ℚ) := by push_cast; ring
    have := Int.floor_le_floor h3le
    rwa [hcast, Int.floor_intCast] at this
  have hk13 : (⌊h1⌋).toNat ≤ (⌊h3⌋).toNat := Int.toNat_le_toNat hf13
  have hk3n : (⌊h3⌋).toNat < n := by omega
  have hk3s : (⌊h3⌋).toNat < s.length := by rwa [hslen]
  have hfr1a : 0 ≤ h1 - (⌊h1⌋:ℚ) := by
    have := Int.floor_le h1
    linarith
  have hfr1b : h1 - (⌊h1⌋:ℚ) ≤ 1 := by
    have := Int.lt_floor_add_one h1
    linarith
  have hfr3a : 0 ≤ h3 - (⌊h3⌋:ℚ) := by
    have := Int.floor_le h3
    linarith
  by_cases hk : (⌊h1⌋).toNat = (⌊h3⌋).toNat
  · have hfl : ⌊h1⌋ = ⌊h3⌋ := by omega
    rw [hfl]
    have hba := getD_succ_self_le s hsort hk3s
    have hf13q : h1 - (⌊h3⌋:ℚ) ≤ h3 - (⌊h3⌋:ℚ) := by linarith
    linarith [mul_le_mul_of_nonneg_right hf13q (sub_nonneg.mpr hba)]
  · have hklt : (⌊h1⌋).toNat < (⌊h3⌋).toNat := lt_of_le_of_ne hk13 hk
    have hk1s : (⌊h1⌋).toNat + 1 ≤ (⌊h3⌋).toNat := hklt
    have hk1lt : (⌊h1⌋).toNat < s.length := lt_of_lt_of_le hklt (le_of_lt hk3s)
    have hk1succ : (⌊h1⌋).toNat + 1 < s.length := lt_of_le_of_lt hk1s hk3s
    have hba1 := getD_succ_self_le s hsort hk1lt
    -- quantile at q1 is at most the upper interpolation point
    have hup : s.getD (⌊h1⌋).toNat 0 +
        (h1 - (⌊h1⌋:ℚ)) * (s.getD ((⌊h1⌋).toNat + 1) (s.getD (⌊h1⌋).toNat 0) -
          s.getD (⌊h1⌋).toNat 0) ≤
        s.getD ((⌊h1⌋).toNat + 1) (s.getD (⌊h1⌋).toNat 0) := by
      nlinarith [mul_le_mul_of_nonneg_right hfr1b (sub_nonneg.mpr hba1)]
    have hmid : s.getD ((⌊h1⌋).toNat + 1) (s.getD (⌊h1⌋).toNat 0) ≤ s.getD (⌊h3⌋).toNat 0 := by
      rw [getD_eq_getElem_of_lt s _ hk1succ, getD_eq_getElem_of_lt s _ hk3s]
      have := sorted_getElem_le s hsort hk1s hk3s
      simpa [List.get_eq_getElem] using this
    have hba3 := getD_succ_self_le s hsort hk3s
    have hlow : s.getD (⌊h3⌋).toNat 0 ≤ s.getD (⌊h3⌋).toNat 0 +
        (h3 - (⌊h3⌋:ℚ)) * (s.getD ((⌊h3⌋).toNat + 1) (s.getD (⌊h3⌋).toNat 0) -
          s.getD (⌊h3⌋).toNat 0) := by
      nlinarith [mul_le_mul_of_nonneg_left (sub_nonneg.mpr hba3) hfr3a]
    linarith

theorem colQuantileBounds_le {cells : List (Option ℚ)} {lb ub : ℚ}
    (h : colQuantileBounds cells = some (lb, ub)) : lb ≤ ub := by
  unfold colQuantileBounds colBoundsFrom at h
  by_cases he : (observedVals cells).isEmpty = true
  · rw [if_pos he] at h
    exact absurd h (by simp)
  · rw [if_neg he] at h
    simp only [Option.some.injEq, Prod.mk.injEq] at h
    obtain ⟨hlb, hub⟩ := h
    have hne : observedVals cells ≠ [] := by
      intro hnil
      rw [hnil] at he
      exact he rfl
    have hq := quantileLinear_mono (observedVals cells) hne
      (by norm_num : (0:ℚ) ≤ 1/4) (by norm_num : (1/4 : ℚ) ≤ 3/4) (by norm_num : (3/4 : ℚ) ≤ 1)
    rw [← hlb, ← hub]
    linarith

theorem capVal_mem_Icc (lb ub v : ℚ) (h : lb ≤ ub) :
    lb ≤ capVal lb ub v ∧ capVal lb ub v ≤ ub := by
  unfold capVal
  dsimp only
  split_ifs with h1 h2 h3 <;> constructor <;> linarith

/-- C3 (amended): outlier capping is not idempotent in general (see the
counterexample), but the property the spec derives it from does hold:
after one pass of the per-column body of `handle_outliers`, every
non-missing value of the processed column lies within the
`[lower_bound, upper_bound]` fences computed in that pass; the
single-column run of `handle_outliers` stores exactly that processed
column. -/
theorem outlier_capping_within_bounds (cells : List (Option ℚ)) (nm : String)
    (lb ub : ℚ) (h : colQuantileBounds cells = some (lb, ub)) :
    (∀ v ∈ observedVals (processColumn cells nm).1, lb ≤ v ∧ v ≤ ub) ∧
    (handleOutliers ⟨[(nm, ColData.num cells)]⟩ [nm]).1.lookupCol nm =
      some (ColData.num (processColumn cells nm).1) := by
  have hlu : lb ≤ ub := colQuantileBounds_le h
  constructor
  · intro v hv
    unfold processColumn at hv
    rw [h] at hv
    by_cases hn : outlierCountWith lb ub cells = 0
    · simp only [if_pos hn] at hv
      have hzero : ∀ c ∈ cells, isOutlierCell lb ub c = false := by
        have hfil : cells.filter (isOutlierCell lb ub) = [] := by
          have := hn
          unfold outlierCountWith at this
          exact List.length_eq_zero.mp this
        intro c hc
        by_contra hcc
        rw [Bool.not_eq_false] at hcc
        have : c ∈ cells.filter (isOutlierCell lb ub) := List.mem_filter.mpr ⟨hc, hcc⟩
        rw [hfil] at this
        exact absurd this (List.not_mem_nil c)
      unfold observedVals at hv
      rw [List.mem_filterMap] at hv
      obtain ⟨c, hc, hcv⟩ := hv
      have hflag := hzero c hc
      cases c with
      | none => exact absurd hcv (by simp)
      | some v0 =>
          have hv0 : v0 = v := by simpa using hcv
          subst hv0
          unfold isOutlierCell at hflag
          simp only [Bool.or_eq_false_iff, decide_eq_false_iff_not, not_lt] at hflag
          exact ⟨hflag.1, hflag.2⟩
    · simp only [if_neg hn] at hv
      rw [observedVals_capColumnWith] at hv
      rw [List.mem_map] at hv
      obtain ⟨v0, -, hv0⟩ := hv
      rw [← hv0]
      exact capVal_mem_Icc lb ub v0 hlu
  · unfold handleOutliers
    have hval : (List.filter (fun c =>
        (⟨[(nm, ColData.num cells)]⟩ : Table).names.contains c) [nm]) = [nm] := by
      simp [Table.names]
    rw [hval]
    dsimp only
    have hstep : outlierStep (⟨[(nm, ColData.num cells)]⟩, ([] : List String)) nm =
        (⟨[(nm, ColData.num (processColumn cells nm).1)]⟩, (processColumn cells nm).2) := by
      unfold outlierStep
      rw [show (⟨[(nm, ColData.num cells)]⟩ : Table).lookupCol nm =
        some (ColData.num cells) from lookup_cons_self]
      simp [Table.setCol]
    rw [List.foldl_cons, List.foldl_nil, hstep]
    exact lookup_cons_self

theorem handleOutliers_single (nm : String) (cells : List (Option ℚ)) :
    (handleOutliers ⟨[(nm, ColData.num cells)]⟩ [nm]).1 =
      ⟨[(nm, ColData.num (processColumn cells nm).1)]⟩ := by
  unfold handleOutliers
  have hval : (List.filter (fun c =>
      (⟨[(nm, ColData.num cells)]⟩ : Table).names.contains c) [nm]) = [nm] := by
    simp [Table.names]
  rw [hval]
  dsimp only
  have hstep : outlierStep (⟨[(nm, ColData.num cells)]⟩, ([] : List String)) nm =
      (⟨[(nm, ColData.num (processColumn cells nm).1)]⟩, (processColumn cells nm).2) := by
    unfold outlierStep
    rw [show (⟨[(nm, ColData.num cells)]⟩ : Table).lookupCol nm =
      some (ColData.num cells) from lookup_cons_self]
    simp [Table.setCol]
  rw [List.foldl_cons, List.foldl_nil, hstep]

theorem cexBounds1 :
    colQuantileBounds [some 0, some 10, some 11, some 12] = some (15/8, 135/8) := by
  norm_num [colQuantileBounds, colBoundsFrom, quantileLinear, observedVals, List.filterMap,
    List.insertionSort, List.orderedInsert, List.getD_cons_zero, List.getD_cons_succ,
    Int.toNat_ofNat, Int.toNat_zero, show Int.toNat 2 = 2 from rfl,
    show Int.toNat 0 = 0 from rfl]

theorem cexProc1 :
    (processColumn [some 0, some 10, some 11, some 12] "x").1 =
      [some (15/8), some 10, some 11, some 12] := by
  unfold processColumn
  rw [cexBounds1]
  have hcount : outlierCountWith (15/8) (135/8) [some 0, some 10, some 11, some 12] = 1 := by
    norm_num [outlierCountWith, isOutlierCell, List.filter, decide_eq_true_eq]
  simp only [hcount]
  norm_num [capColumnWith, capVal, List.map]

theorem cexBounds2 :
    colQuantileBounds [some (15/8), some 10, some 11, some 12] =
      some (195/64, 1035/64) := by
  norm_num [colQuantileBounds, colBoundsFrom, quantileLinear, observedVals, List.filterMap,
    List.insertionSort, List.orderedInsert, List.getD_cons_zero, List.getD_cons_succ,
    Int.toNat_ofNat, Int.toNat_zero, show Int.toNat 2 = 2 from rfl,
    show Int.toNat 0 = 0 from rfl]

theorem cexProc2 :
    (processColumn [some (15/8), some 10, some 11, some 12] "x").1 =
      [some (195/64), some 10, some 11, some 12] := by
  unfold processColumn
  rw [cexBounds2]
  have hcount : outlierCountWith (195/64) (1035/64)
      [some (15/8), some 10, some 11, some 12] = 1 := by
    norm_num [outlierCountWith, isOutlierCell, List.filter, decide_eq_true_eq]
  simp only [hcount]
  norm_num [capColumnWith, capVal, List.map]

/-- C3 counterexample: capping `[0, 10, 11, 12]` moves 0 up to the lower
fence 15/8, which shifts the quartiles, so a second pass computes a
higher lower fence 195/64 and caps again — `handle_outliers` applied
twice differs from `handle_outliers` applied once. -/
theorem handle_outliers_not_idempotent :
    (handleOutliers (handleOutliers
        ⟨[("x", ColData.num [some 0, some 10, some 11, some 12])]⟩ ["x"]).1 ["x"]).1 ≠
      (handleOutliers ⟨[("x", ColData.num [some 0, some 10, some 11, some 12])]⟩ ["x"]).1 := by
  rw [handleOutliers_single "x" [some 0, some 10, some 11, some 12], cexProc1]
  rw [handleOutliers_single "x" [some (15/8), some 10, some 11, some 12], cexProc2]
  intro hEq
  simp only [Table.mk.injEq, List.cons.injEq, Prod.mk.injEq, ColData.num.injEq,
    Option.some.injEq, and_true, true_and] at hEq
  norm_num at hEq

/-- C3 witness instantiation. -/
theorem outlier_capping_within_bounds_witness :
    (15/8 : ℚ) ≤ 10 ∧ (10 : ℚ) ≤ 135/8 := by
  have h := outlier_capping_within_bounds [some 0, some 10, some 11, some 12] "x"
    (15/8) (135/8) cexBounds1
  refine h.1 10 ?_
  rw [cexProc1]
  rw [show observedVals [some ((15:ℚ)/8), some 10, some 11, some 12] =
    [15/8, 10, 11, 12] from rfl]
  exact List.mem_cons_of_mem _ (List.mem_cons_self _ _)

end SurveyPipeline
